import Mathlib

/-!
Verification of the binary-format decoders of the Altium library analysis
scripts (`analyze_pcblib.py`, `analyze_schlib.py`).

A byte buffer is modelled as `List Nat` (each entry one byte value).
Decoded strings are modelled as lists of Unicode code points (`List Nat`).
Python functions are embedded as Lean functions over these buffers:
pure reads stay pure, catchable exceptions become `Option`/`Except`, and
the two unbounded `while` loops are embedded with an explicit fuel
parameter that is provably sufficient (`data.length + 1`), so every
definition is executable.
-/

namespace Altium

/-- Byte of `data` at index `i`; out-of-range indices read as 0.  The Python
code only indexes inside previously checked bounds, so the default is never
observable in the embedded control flow. -/
def byteAt (data : List Nat) (i : Nat) : Nat :=
  data.getD i 0

/-- Little-endian 32-bit read, `struct.unpack_from("<I", data, offset)`. -/
def readLE32 (data : List Nat) (offset : Nat) : Nat :=
  byteAt data offset + 256 * byteAt data (offset + 1) +
    65536 * byteAt data (offset + 2) + 16777216 * byteAt data (offset + 3)

/-- Little-endian 16-bit read, `int.from_bytes(data[o:o+2], 'little')`. -/
def readLE16 (data : List Nat) (offset : Nat) : Nat :=
  byteAt data offset + 256 * byteAt data (offset + 1)

/-- Big-endian 16-bit read, `int.from_bytes(data[o:o+2], 'big')`. -/
def readBE16 (data : List Nat) (offset : Nat) : Nat :=
  256 * byteAt data offset + byteAt data (offset + 1)

/-- `read_block` of `analyze_pcblib.py`: read a 4-byte little-endian length
`L`; on any failure (fewer than 4 bytes left, `L > 100000`, or `L` bytes not
available after the prefix) return `(b"", offset)` unchanged, otherwise
return the `L` payload bytes and `offset + 4 + L`. -/
def read_block (data : List Nat) (offset : Nat) : List Nat × Nat :=
  if offset + 4 > data.length then ([], offset)
  else
    let block_len := readLE32 data offset
    if block_len > 100000 ∨ offset + 4 + block_len > data.length then ([], offset)
    else ((data.drop (offset + 4)).take block_len, offset + 4 + block_len)

/-- Character table of the `windows-1252` code page for its defined bytes:
0x00–0x7F and 0xA0–0xFF map to themselves, 0x80–0x9F through the cp1252
table below (the five undefined bytes are screened out in
`win1252Byte`). -/
def win1252Map (b : Nat) : Nat :=
  if b = 0x80 then 0x20AC
  else if b = 0x82 then 0x201A
  else if b = 0x83 then 0x0192
  else if b = 0x84 then 0x201E
  else if b = 0x85 then 0x2026
  else if b = 0x86 then 0x2020
  else if b = 0x87 then 0x2021
  else if b = 0x88 then 0x02C6
  else if b = 0x89 then 0x2030
  else if b = 0x8A then 0x0160
  else if b = 0x8B then 0x2039
  else if b = 0x8C then 0x0152
  else if b = 0x8E then 0x017D
  else if b = 0x91 then 0x2018
  else if b = 0x92 then 0x2019
  else if b = 0x93 then 0x201C
  else if b = 0x94 then 0x201D
  else if b = 0x95 then 0x2022
  else if b = 0x96 then 0x2013
  else if b = 0x97 then 0x2014
  else if b = 0x98 then 0x02DC
  else if b = 0x99 then 0x2122
  else if b = 0x9A then 0x0161
  else if b = 0x9B then 0x203A
  else if b = 0x9C then 0x0153
  else if b = 0x9E then 0x017E
  else if b = 0x9F then 0x0178
  else b

/-- One byte through Python's `windows-1252` codec: the five undefined
bytes raise (`none`), every other byte maps to the character given by
`win1252Map`. -/
def win1252Byte (b : Nat) : Option Nat :=
  if b = 0x81 ∨ b = 0x8D ∨ b = 0x8F ∨ b = 0x90 ∨ b = 0x9D then none
  else some (win1252Map b)

/-- `bytes.decode('windows-1252')`: decode every byte, failing if any byte
is one of the five undefined cp1252 values. -/
def decodeWin1252 : List Nat → Option (List Nat)
  | [] => some []
  | b :: rest =>
    match win1252Byte b, decodeWin1252 rest with
    | some c, some s => some (c :: s)
    | _, _ => none

/-- Python `text.split('|')` on a list of code points (code point 124). -/
def splitOnPipe (l : List Nat) : List (List Nat) :=
  match l with
  | [] => [[]]
  | c :: t =>
    let r := splitOnPipe t
    if c = 124 then [] :: r
    else
      match r with
      | h :: t2 => (c :: h) :: t2
      | [] => [[c]]

/-- Python `part.split('=', 1)` restricted to parts that contain `'='`
(code point 61): key is everything before the first `'='`, value
everything after it; `none` when there is no `'='`. -/
def splitEq (part : List Nat) : Option (List Nat × List Nat) :=
  let s := part.span (fun c => c ≠ 61)
  match s.2 with
  | [] => none
  | _ :: v => some (s.1, v)

/-- Python `dict` assignment `props[key] = value`: overwrite in place if the
key exists (keeping insertion order), otherwise append. -/
def dictInsert (m : List (List Nat × List Nat)) (k v : List Nat) :
    List (List Nat × List Nat) :=
  if m.any (fun p => p.1 = k) then
    m.map (fun p => if p.1 = k then (k, v) else p)
  else m ++ [(k, v)]

/-- Body of `parse_properties` after a successful decode: split on `'|'`,
keep only parts containing `'='`, build the ordered map last-write-wins. -/
def parsePropsText (text : List Nat) : List (List Nat × List Nat) :=
  (splitOnPipe text).foldl
    (fun m part =>
      match splitEq part with
      | none => m
      | some kv => dictInsert m kv.1 kv.2)
    []

/-- `parse_properties` of `analyze_schlib.py`: decode the bytes as
windows-1252 and parse pipe-delimited `key=value` pairs; the surrounding
`try/except` turns a decode failure into an empty map. -/
def parse_properties (data : List Nat) : List (List Nat × List Nat) :=
  match decodeWin1252 data with
  | none => []
  | some text => parsePropsText text

/-- `read_string_from_block` of `analyze_pcblib.py`: first byte is the
string length; returns the decoded string, or the empty string when the
block is empty, the length overruns the block, or the windows-1252 decode
fails (caught by the `try/except`). -/
def read_string_from_block (block : List Nat) : List Nat :=
  if block.length < 1 then []
  else
    let str_len := byteAt block 0
    if str_len + 1 > block.length then []
    else
      match decodeWin1252 ((block.drop 1).take str_len) with
      | some s => s
      | none => []

/-- `parse_pad_blocks_v2`: six consecutive `read_block` calls; the
designator (block 0) and the auxiliary string (block 2) are extracted via
`read_string_from_block`.  The numeric geometry dump of block 4 is
print-only in the source (guarded reads that never move the cursor) and is
not modelled. -/
def parse_pad_blocks_v2 (data : List Nat) (offset : Nat) :
    (List Nat × List Nat) × Nat :=
  let r0 := read_block data offset
  let designator := read_string_from_block r0.1
  let r1 := read_block data r0.2
  let r2 := read_block data r1.2
  let block2_str := read_string_from_block r2.1
  let r3 := read_block data r2.2
  let r4 := read_block data r3.2
  let r5 := read_block data r4.2
  ((designator, block2_str), r5.2)

/-- `parse_track_blocks`: a single `read_block`; the geometry dump is
print-only and never moves the cursor. -/
def parse_track_blocks (data : List Nat) (offset : Nat) : List Nat × Nat :=
  let r := read_block data offset
  (r.1, r.2)

/-- `parse_arc_blocks`: a single `read_block`. -/
def parse_arc_blocks (data : List Nat) (offset : Nat) : List Nat × Nat :=
  let r := read_block data offset
  (r.1, r.2)

/-- `parse_fill_blocks`: a single `read_block`. -/
def parse_fill_blocks (data : List Nat) (offset : Nat) : List Nat × Nat :=
  let r := read_block data offset
  (r.1, r.2)

/-- `parse_text_blocks`: a geometry block then a content block whose text
is extracted via `read_string_from_block`. -/
def parse_text_blocks (data : List Nat) (offset : Nat) : List Nat × Nat :=
  let r0 := read_block data offset
  let r1 := read_block data r0.2
  let content := read_string_from_block r1.1
  (content, r1.2)

/-- Vertex extraction of `parse_region_blocks` from the vertices block:
when at least 4 bytes are present, the first 4 bytes give the little-endian
vertex count, and vertex `i` is the 16-byte pair of 8-byte values starting
at offset `4 + i*16`, read only when it fits inside the block (the loop
silently skips indices that would overrun). -/
def regionVertices (block1 : List Nat) : List (List Nat × List Nat) :=
  if 4 ≤ block1.length then
    (List.range (readLE32 block1 0)).filterMap (fun i =>
      if 4 + i * 16 + 16 ≤ block1.length then
        some ((block1.drop (4 + i * 16)).take 8,
              (block1.drop (4 + i * 16 + 8)).take 8)
      else none)
  else []

/-- `parse_region_blocks`: a properties block then a vertices block; the
vertices are decoded from the second block. -/
def parse_region_blocks (data : List Nat) (offset : Nat) :
    List (List Nat × List Nat) × Nat :=
  let r0 := read_block data offset
  let r1 := read_block data r0.2
  (regionVertices r1.1, r1.2)

/-- `parse_component_body_blocks`: `for i in range(3)` reads three blocks;
the parameter-string dump of block 0 is print-only. -/
def parse_component_body_blocks (data : List Nat) (offset : Nat) : Nat :=
  let r0 := read_block data offset
  let r1 := read_block data r0.2
  let r2 := read_block data r1.2
  r2.2

/-- Tag dispatch of `parse_footprint_data` (the `if/elif` chain after
`offset += 1`): returns the per-kind parser's new offset for the seven
implemented tags, `none` for every other tag — including 3 (Via), which is
named in `record_names` but has no parsing branch. -/
def dispatch (data : List Nat) (offset : Nat) (tag : Nat) : Option Nat :=
  if tag = 2 then some (parse_pad_blocks_v2 data offset).2
  else if tag = 4 then some (parse_track_blocks data offset).2
  else if tag = 1 then some (parse_arc_blocks data offset).2
  else if tag = 5 then some (parse_text_blocks data offset).2
  else if tag = 11 then some (parse_region_blocks data offset).2
  else if tag = 6 then some (parse_fill_blocks data offset).2
  else if tag = 12 then some (parse_component_body_blocks data offset)
  else none

/-- Terminal condition of the footprint primitive loop: `done` for the
0-tag terminator, `aborted` for an unrecognized tag (the `break` in the
`else` branch), `ranOff` when the buffer ends before a terminator, and
`noFuel` only when the fuel bound is insufficient (never reached when the
loop is entered through `parsePrims`). -/
inductive FPState where
  | done
  | aborted
  | ranOff
  | noFuel
deriving Repr, DecidableEq

/-- Fueled primitive loop of `parse_footprint_data`: at each iteration read
the tag byte; 0 ends the stream (`done`, cursor on the terminator); a
dispatched tag consumes the tag byte plus the kind's blocks and records the
tag; any other tag consumes the tag byte and aborts.  The result is the
list of decoded primitive tags (the source keeps only the running count and
name of each primitive), the terminal state, and the final offset. -/
def parsePrimsF : Nat → List Nat → Nat → List Nat × FPState × Nat
  | 0, _, offset => ([], .noFuel, offset)
  | fuel + 1, data, offset =>
    if offset < data.length then
      let tag := byteAt data offset
      if tag = 0 then ([], .done, offset)
      else
        match dispatch data (offset + 1) tag with
        | some n =>
          let r := parsePrimsF fuel data n
          (tag :: r.1, r.2)
        | none => ([], .aborted, offset + 1)
    else ([], .ranOff, offset)

/-- The primitive loop, with fuel `data.length + 1` — sufficient because
the offset strictly increases and the loop only runs while it is inside the
buffer. -/
def parsePrims (data : List Nat) (offset : Nat) : List Nat × FPState × Nat :=
  parsePrimsF (data.length + 1) data offset

/-- Whether a byte is a UTF-8 continuation byte (0x80–0xBF). -/
def isCont (b : Nat) : Bool :=
  0x80 ≤ b && b ≤ 0xBF

/-- Python's strict `bytes.decode('utf-8')`, producing the list of code
points or `none` on any invalid, truncated, overlong or surrogate
sequence (modelling the uncaught `UnicodeDecodeError`). -/
def utf8Decode : List Nat → Option (List Nat)
  | [] => some []
  | b1 :: t1 =>
    if b1 < 0x80 then
      match utf8Decode t1 with
      | some s => some (b1 :: s)
      | none => none
    else if 0xC2 ≤ b1 && b1 ≤ 0xDF then
      match t1 with
      | b2 :: t2 =>
        if isCont b2 then
          match utf8Decode t2 with
          | some s => some (((b1 - 0xC0) * 0x40 + (b2 - 0x80)) :: s)
          | none => none
        else none
      | [] => none
    else if 0xE0 ≤ b1 && b1 ≤ 0xEF then
      match t1 with
      | b2 :: b3 :: t3 =>
        let lo2 := if b1 = 0xE0 then 0xA0 else 0x80
        let hi2 := if b1 = 0xED then 0x9F else 0xBF
        if lo2 ≤ b2 && b2 ≤ hi2 && isCont b3 then
          match utf8Decode t3 with
          | some s =>
            some (((b1 - 0xE0) * 0x1000 + (b2 - 0x80) * 0x40 + (b3 - 0x80)) :: s)
          | none => none
        else none
      | _ => none
    else if 0xF0 ≤ b1 && b1 ≤ 0xF4 then
      match t1 with
      | b2 :: b3 :: b4 :: t4 =>
        let lo2 := if b1 = 0xF0 then 0x90 else 0x80
        let hi2 := if b1 = 0xF4 then 0x8F else 0xBF
        if lo2 ≤ b2 && b2 ≤ hi2 && isCont b3 && isCont b4 then
          match utf8Decode t4 with
          | some s =>
            some (((b1 - 0xF0) * 0x40000 + (b2 - 0x80) * 0x1000 +
              (b3 - 0x80) * 0x40 + (b4 - 0x80)) :: s)
          | none => none
        else none
      | _ => none
    else none

/-- Little-endian value of a byte list, `int.from_bytes(bs, 'little')`. -/
def leVal (bs : List Nat) : Nat :=
  bs.foldr (fun b acc => b + 256 * acc) 0

/-- `int.from_bytes(bs, 'little', signed=True)`: two's-complement value at
the width of however many bytes are present (0 for an empty read). -/
def fromBytesSigned (bs : List Nat) : Int :=
  let v := leVal bs
  let m := 256 ^ bs.length
  if 2 * v ≥ m then (v : Int) - (m : Int) else (v : Int)

/-- `BytesIO.read(n)` from position `p`: returns the available bytes (at
most `n`) and the new position, which never passes the end of the
payload. -/
def bioRead (payload : List Nat) (p n : Nat) : List Nat × Nat :=
  ((payload.drop p).take n, min (p + n) payload.length)

/-- A length-prefixed string field of `parse_binary_pin`:
`reader.read(len0).decode('utf-8') if len0 else ''`.  When the declared
length is 0 the read is skipped; otherwise the available bytes are read and
decoded strictly, an invalid sequence raising (`Except.error`). -/
def readStringField (payload : List Nat) (p len0 : Nat) :
    Except Unit (List Nat × Nat) :=
  if len0 = 0 then .ok ([], p)
  else
    let r := bioRead payload p len0
    match utf8Decode r.1 with
    | some s => .ok (s, r.2)
    | none => .error ()

/-- Decoded binary pin record: the fields `parse_binary_pin` stores in its
`props` dict, in source order.  Strings are lists of code points. -/
structure PinRecord where
  record : Int
  ownerPartId : Int
  ownerPartDisplayMode : Nat
  symInnerEdge : Nat
  symOuterEdge : Nat
  symInside : Nat
  symOutside : Nat
  description : List Nat
  electricalType : Nat
  rotated : Bool
  flipped : Bool
  hide : Bool
  showName : Bool
  showDesignator : Bool
  pinLength : Nat
  locX : Int
  locY : Int
  color : Int
  name : List Nat
  designator : List Nat
deriving Repr, DecidableEq

/-- `parse_binary_pin` of `analyze_schlib.py`: sequential `BytesIO` reads
with no bounds checking — short reads silently yield zero integers and
truncated strings; only an invalid UTF-8 string field raises
(`Except.error`, uncaught in the source). -/
def parse_binary_pin (payload : List Nat) : Except Unit PinRecord :=
  let s1 := bioRead payload 0 4
  let s2 := bioRead payload s1.2 1
  let s3 := bioRead payload s2.2 2
  let s4 := bioRead payload s3.2 1
  let s5 := bioRead payload s4.2 1
  let s6 := bioRead payload s5.2 1
  let s7 := bioRead payload s6.2 1
  let s8 := bioRead payload s7.2 1
  let s9 := bioRead payload s8.2 1
  let desc_len := leVal s9.1
  let s10 := bioRead payload s9.2 1
  match readStringField payload s10.2 desc_len with
  | .error e => .error e
  | .ok d =>
    let s11 := bioRead payload d.2 1
    let s12 := bioRead payload s11.2 1
    let flags := leVal s12.1
    let s13 := bioRead payload s12.2 2
    let s14 := bioRead payload s13.2 2
    let s15 := bioRead payload s14.2 2
    let s16 := bioRead payload s15.2 4
    let s17 := bioRead payload s16.2 1
    match readStringField payload s17.2 (leVal s17.1) with
    | .error e => .error e
    | .ok nm =>
      let s18 := bioRead payload nm.2 1
      match readStringField payload s18.2 (leVal s18.1) with
      | .error e => .error e
      | .ok dsg =>
        .ok {
          record := fromBytesSigned s1.1
          ownerPartId := fromBytesSigned s3.1
          ownerPartDisplayMode := leVal s4.1
          symInnerEdge := leVal s5.1
          symOuterEdge := leVal s6.1
          symInside := leVal s7.1
          symOutside := leVal s8.1
          description := d.1
          electricalType := leVal s11.1
          rotated := flags &&& 0x01 != 0
          flipped := flags &&& 0x02 != 0
          hide := flags &&& 0x04 != 0
          showName := flags &&& 0x08 != 0
          showDesignator := flags &&& 0x10 != 0
          pinLength := leVal s13.1
          locX := fromBytesSigned s14.1
          locY := fromBytesSigned s15.1
          color := fromBytesSigned s16.1
          name := nm.1
          designator := dsg.1 }

/-- One decoded SchLib record: a pipe-delimited text record, a binary pin,
or an unrecognized type kept with (the first 50 bytes of) its payload. -/
inductive SchRecord where
  | text (props : List (List Nat × List Nat))
  | pin (p : PinRecord)
  | unknown (rtype : Nat) (raw : List Nat)
deriving Repr, DecidableEq

/-- How the per-component record loop of `analyze_schlib` ends:
`terminator` for a declared record length of 0, `endOfData` when fewer than
5 bytes remain past the cursor (the `while offset < len(data) - 4`
condition fails), `decodeError` when `parse_binary_pin` raises, and
`noFuel` only on insufficient fuel. -/
inductive SchEnd where
  | terminator
  | endOfData
  | decodeError
  | noFuel
deriving Repr, DecidableEq

/-- Fueled per-component record loop of `analyze_schlib`: while at least 5
bytes remain, read a 2-byte little-endian record length and a 2-byte
big-endian record type; length 0 ends the stream; otherwise slice the
payload (clamped to the buffer), decode by type, and advance the cursor by
`4 + record_length`.  An exception from `parse_binary_pin` propagates out
of the loop, abandoning the rest of the stream. -/
def analyze_recordsF : Nat → List Nat → Nat → List SchRecord × SchEnd
  | 0, _, _ => ([], .noFuel)
  | fuel + 1, data, offset =>
    if offset + 4 < data.length then
      let record_length := readLE16 data offset
      let record_type := readBE16 data (offset + 2)
      if record_length = 0 then ([], .terminator)
      else
        let record_data := (data.drop (offset + 4)).take record_length
        if record_type = 0 then
          let r := analyze_recordsF fuel data (offset + 4 + record_length)
          (.text (parse_properties record_data) :: r.1, r.2)
        else if record_type = 1 then
          match parse_binary_pin record_data with
          | .ok p =>
            let r := analyze_recordsF fuel data (offset + 4 + record_length)
            (.pin p :: r.1, r.2)
          | .error _ => ([], .decodeError)
        else
          let r := analyze_recordsF fuel data (offset + 4 + record_length)
          (.unknown record_type (record_data.take 50) :: r.1, r.2)
    else ([], .endOfData)

/-- The record loop with fuel `data.length + 1`, sufficient because each
iteration advances the cursor by at least 5. -/
def analyze_records (data : List Nat) (offset : Nat) :
    List SchRecord × SchEnd :=
  analyze_recordsF (data.length + 1) data offset

/-- Little-endian 4-byte encoding of a length, as written in the format's
block prefixes. -/
def encodeLE32 (n : Nat) : List Nat :=
  [n % 256, n / 256 % 256, n / 65536 % 256, n / 16777216 % 256]

/-- A length-prefixed block with the given payload. -/
def encBlock (payload : List Nat) : List Nat :=
  encodeLE32 payload.length ++ payload

/-- Concatenation of a sequence of length-prefixed blocks. -/
def blocksEnc : List (List Nat) → List Nat
  | [] => []
  | p :: ps => encBlock p ++ blocksEnc ps

/-- Total encoded size of a sequence of blocks: 4 prefix bytes plus the
payload, per block. -/
def chunksLen : List (List Nat) → Nat
  | [] => 0
  | p :: ps => 4 + p.length + chunksLen ps

/-- Offset after `k` consecutive `read_block` calls starting at `offset`. -/
def readBlockIter (data : List Nat) (offset : Nat) : Nat → Nat
  | 0 => offset
  | k + 1 => readBlockIter data (read_block data offset).2 k

/-- Stream used to refute claim C4: a type-1 (binary pin) record whose
declared 1-byte description is the invalid UTF-8 byte 0x80, followed by a
well-formed text record `"A=1"` and a terminator. -/
def c4BadStream : List Nat :=
  [15, 0, 0, 1,
   0, 0, 0, 0, 0, 0, 0, 0, 0, 0, 0, 0, 1, 0, 128,
   3, 0, 0, 0, 65, 61, 49,
   0, 0, 0, 0, 9]
/-- Stream used for the C4 witness: one text record then a terminator. -/
def c4GoodStream : List Nat := [3, 0, 0, 0, 65, 61, 49, 0, 0, 0, 0]
/-- Stream used for C5: a truncated binary-pin record (declared description
length 5, no description bytes), then a text record, then a terminator. -/
def c5Stream : List Nat :=
  [14, 0, 0, 1,
   0, 0, 0, 0, 0, 0, 0, 0, 0, 0, 0, 0, 5, 0,
   3, 0, 0, 0, 65, 61, 49,
   0, 0, 0, 0, 9]
/-- Number of length-prefixed blocks each implemented primitive kind
consumes: Arc 1, Pad 6, Track 1, Text 2, Fill 1, Region 2,
ComponentBody 3. -/
def arity : Nat → Nat
  | 1 => 1
  | 2 => 6
  | 4 => 1
  | 5 => 2
  | 6 => 1
  | 11 => 2
  | 12 => 3
  | _ => 0

/-- Encoding of a list of primitives, each a tag byte followed by its
blocks. -/
def encStream : List (Nat × List (List Nat)) → List Nat
  | [] => []
  | c :: cs => (c.1 :: blocksEnc c.2) ++ encStream cs

/-- A well-formed encoded primitive: an implemented tag, the block count
that tag's decoder consumes, and every block under the length ceiling with
byte-valued contents. -/
def WFChunk (c : Nat × List (List Nat)) : Prop :=
  c.1 ∈ ([1, 2, 4, 5, 6, 11, 12] : List Nat) ∧ c.2.length = arity c.1 ∧
    ∀ p ∈ c.2, p.length ≤ 100000 ∧ ∀ b ∈ p, b < 256

instance (c : Nat × List (List Nat)) : Decidable (WFChunk c) := by
  unfold WFChunk
  infer_instance

theorem byteAt_append_right (pre l : List Nat) (i : Nat) :
    byteAt (pre ++ l) (pre.length + i) = byteAt l i := by
  induction pre with
  | nil => simp [byteAt]
  | cons a t ih =>
    have : t.length + 1 + i = (t.length + i) + 1 := by omega
    simp only [List.cons_append, List.length_cons, this, byteAt,
      List.getD_cons_succ]
    exact ih

theorem length_blocksEnc (ps : List (List Nat)) :
    (blocksEnc ps).length = chunksLen ps := by
  induction ps with
  | nil => simp [blocksEnc, chunksLen]
  | cons p t ih =>
    simp [blocksEnc, chunksLen, encBlock, encodeLE32, ih]
    omega

theorem readLE32_enc (pre rest : List Nat) (n : Nat) (h : n < 4294967296) :
    readLE32 (pre ++ (encodeLE32 n ++ rest)) pre.length = n := by
  have h0 := byteAt_append_right pre (encodeLE32 n ++ rest) 0
  have h1 := byteAt_append_right pre (encodeLE32 n ++ rest) 1
  have h2 := byteAt_append_right pre (encodeLE32 n ++ rest) 2
  have h3 := byteAt_append_right pre (encodeLE32 n ++ rest) 3
  simp only [Nat.add_zero] at h0
  unfold readLE32
  rw [h0, h1, h2, h3]
  simp only [encodeLE32, List.cons_append, byteAt, List.getD_cons_zero,
    List.getD_cons_succ]
  omega

/-- Reading a block positioned right after `pre` recovers exactly the
payload and advances past the block, provided the declared length is under
the sanity ceiling. -/
theorem read_block_enc (pre payload rest : List Nat)
    (h : payload.length ≤ 100000) :
    read_block (pre ++ (encBlock payload ++ rest)) pre.length =
      (payload, pre.length + (4 + payload.length)) := by
  have hlen : (pre ++ (encBlock payload ++ rest)).length =
      pre.length + 4 + payload.length + rest.length := by
    simp [encBlock, encodeLE32]
    omega
  have hL : readLE32 (pre ++ (encBlock payload ++ rest)) pre.length =
      payload.length := by
    have : pre ++ (encBlock payload ++ rest) =
        pre ++ (encodeLE32 payload.length ++ (payload ++ rest)) := by
      simp [encBlock, List.append_assoc]
    rw [this]
    exact readLE32_enc pre (payload ++ rest) payload.length (by omega)
  simp only [read_block]
  rw [hL, hlen]
  have hc1 : ¬ pre.length + 4 > pre.length + 4 + payload.length + rest.length := by
    omega
  have hc2 : ¬ (payload.length > 100000 ∨
      pre.length + 4 + payload.length >
        pre.length + 4 + payload.length + rest.length) := by
    omega
  rw [if_neg hc1, if_neg hc2]
  have hdrop : (pre ++ (encBlock payload ++ rest)).drop (pre.length + 4) =
      payload ++ rest := by
    have : pre ++ (encBlock payload ++ rest) =
        (pre ++ encodeLE32 payload.length) ++ (payload ++ rest) := by
      simp [encBlock, List.append_assoc]
    rw [this]
    exact List.drop_left' (by simp [encodeLE32])
  rw [hdrop, List.take_left' rfl, Nat.add_assoc]

theorem read_block_mono (data : List Nat) (offset : Nat) :
    offset ≤ (read_block data offset).2 := by
  simp only [read_block]
  split
  · simp
  · split
    · simp
    · simp
      omega

theorem readBlockIter_mono (data : List Nat) (k : Nat) : ∀ offset : Nat,
    offset ≤ readBlockIter data offset k := by
  induction k with
  | zero => intro offset; simp [readBlockIter]
  | succ k ih =>
    intro offset
    calc offset ≤ (read_block data offset).2 := read_block_mono data offset
      _ ≤ readBlockIter data (read_block data offset).2 k := ih _
      _ = readBlockIter data offset (k + 1) := rfl

theorem parse_pad_off (data : List Nat) (offset : Nat) :
    (parse_pad_blocks_v2 data offset).2 = readBlockIter data offset 6 := rfl

theorem parse_track_off (data : List Nat) (offset : Nat) :
    (parse_track_blocks data offset).2 = readBlockIter data offset 1 := rfl

theorem parse_arc_off (data : List Nat) (offset : Nat) :
    (parse_arc_blocks data offset).2 = readBlockIter data offset 1 := rfl

theorem parse_fill_off (data : List Nat) (offset : Nat) :
    (parse_fill_blocks data offset).2 = readBlockIter data offset 1 := rfl

theorem parse_text_off (data : List Nat) (offset : Nat) :
    (parse_text_blocks data offset).2 = readBlockIter data offset 2 := rfl

theorem parse_region_off (data : List Nat) (offset : Nat) :
    (parse_region_blocks data offset).2 = readBlockIter data offset 2 := rfl

theorem parse_body_off (data : List Nat) (offset : Nat) :
    parse_component_body_blocks data offset = readBlockIter data offset 3 := rfl

theorem dispatch_mono (data : List Nat) (offset tag n : Nat)
    (h : dispatch data offset tag = some n) : offset ≤ n := by
  unfold dispatch at h
  split at h
  · cases h; rw [parse_pad_off]; exact readBlockIter_mono data 6 offset
  · split at h
    · cases h; rw [parse_track_off]; exact readBlockIter_mono data 1 offset
    · split at h
      · cases h; rw [parse_arc_off]; exact readBlockIter_mono data 1 offset
      · split at h
        · cases h; rw [parse_text_off]; exact readBlockIter_mono data 2 offset
        · split at h
          · cases h; rw [parse_region_off]
            exact readBlockIter_mono data 2 offset
          · split at h
            · cases h; rw [parse_fill_off]
              exact readBlockIter_mono data 1 offset
            · split at h
              · cases h; rw [parse_body_off]
                exact readBlockIter_mono data 3 offset
              · cases h

/-- Any two sufficient fuel values give the primitive loop the same
result. -/
theorem parsePrimsF_fuel (data : List Nat) : ∀ f g offset : Nat,
    data.length < offset + f → data.length < offset + g →
    1 ≤ f → 1 ≤ g →
    parsePrimsF f data offset = parsePrimsF g data offset := by
  intro f
  induction f with
  | zero => intro g offset _ _ hf _; omega
  | succ f ih =>
    intro g offset hfb hgb _ hg
    obtain ⟨g', rfl⟩ : ∃ g', g = g' + 1 := ⟨g - 1, by omega⟩
    show parsePrimsF (f + 1) data offset = parsePrimsF (g' + 1) data offset
    simp only [parsePrimsF]
    by_cases hoff : offset < data.length
    · rw [if_pos hoff, if_pos hoff]
      by_cases htag : byteAt data offset = 0
      · rw [if_pos htag, if_pos htag]
      · rw [if_neg htag, if_neg htag]
        cases hd : dispatch data (offset + 1) (byteAt data offset) with
        | none => rfl
        | some n =>
          have hn : offset + 1 ≤ n := dispatch_mono data (offset + 1) _ n hd
          have hrec : parsePrimsF f data n = parsePrimsF g' data n := by
            exact ih g' n (by omega) (by omega) (by omega) (by omega)
          dsimp only
          rw [hrec]
    · rw [if_neg hoff, if_neg hoff]

theorem parsePrims_step_done (data : List Nat) (offset : Nat)
    (h : offset < data.length) (ht : byteAt data offset = 0) :
    parsePrims data offset = ([], .done, offset) := by
  unfold parsePrims
  simp only [parsePrimsF]
  rw [if_pos h, if_pos ht]

theorem parsePrimsF_succ_cons (data : List Nat) (f offset n : Nat)
    (h : offset < data.length) (ht : byteAt data offset ≠ 0)
    (hd : dispatch data (offset + 1) (byteAt data offset) = some n) :
    parsePrimsF (f + 1) data offset =
      (byteAt data offset :: (parsePrimsF f data n).1,
        (parsePrimsF f data n).2) := by
  simp only [parsePrimsF]
  rw [if_pos h, if_neg ht]
  simp only [hd]

theorem parsePrims_step_cons (data : List Nat) (offset n : Nat)
    (h : offset < data.length) (ht : byteAt data offset ≠ 0)
    (hd : dispatch data (offset + 1) (byteAt data offset) = some n) :
    parsePrims data offset =
      (byteAt data offset :: (parsePrims data n).1, (parsePrims data n).2) := by
  have hn : offset + 1 ≤ n := dispatch_mono data (offset + 1) _ n hd
  unfold parsePrims
  rw [parsePrimsF_succ_cons data data.length offset n h ht hd]
  have : parsePrimsF data.length data n =
      parsePrimsF (data.length + 1) data n := by
    exact parsePrimsF_fuel data data.length (data.length + 1) n
      (by omega) (by omega) (by omega) (by omega)
  rw [this]

theorem parsePrims_step_abort (data : List Nat) (offset : Nat)
    (h : offset < data.length) (ht : byteAt data offset ≠ 0)
    (hd : dispatch data (offset + 1) (byteAt data offset) = none) :
    parsePrims data offset = ([], .aborted, offset + 1) := by
  unfold parsePrims
  simp only [parsePrimsF]
  rw [if_pos h, if_neg ht, hd]

theorem parsePrims_step_end (data : List Nat) (offset : Nat)
    (h : ¬ offset < data.length) :
    parsePrims data offset = ([], .ranOff, offset) := by
  unfold parsePrims
  simp only [parsePrimsF]
  rw [if_neg h]

/-- Any two sufficient fuel values give the record loop the same result. -/
theorem analyze_recordsF_fuel (data : List Nat) : ∀ f g offset : Nat,
    data.length < offset + f → data.length < offset + g →
    1 ≤ f → 1 ≤ g →
    analyze_recordsF f data offset = analyze_recordsF g data offset := by
  intro f
  induction f with
  | zero => intro g offset _ _ hf _; omega
  | succ f ih =>
    intro g offset hfb hgb _ hg
    obtain ⟨g', rfl⟩ : ∃ g', g = g' + 1 := ⟨g - 1, by omega⟩
    show analyze_recordsF (f + 1) data offset =
      analyze_recordsF (g' + 1) data offset
    simp only [analyze_recordsF]
    by_cases hoff : offset + 4 < data.length
    · rw [if_pos hoff, if_pos hoff]
      by_cases hrl : readLE16 data offset = 0
      · rw [if_pos hrl, if_pos hrl]
      · rw [if_neg hrl, if_neg hrl]
        have hrl1 : 1 ≤ readLE16 data offset := by omega
        have hrec : analyze_recordsF f data (offset + 4 + readLE16 data offset) =
            analyze_recordsF g' data (offset + 4 + readLE16 data offset) := by
          exact ih g' _ (by omega) (by omega) (by omega) (by omega)
        by_cases hty0 : readBE16 data (offset + 2) = 0
        · rw [if_pos hty0, if_pos hty0, hrec]
        · rw [if_neg hty0, if_neg hty0]
          by_cases hty1 : readBE16 data (offset + 2) = 1
          · rw [if_pos hty1, if_pos hty1]
            cases parse_binary_pin
                ((data.drop (offset + 4)).take (readLE16 data offset)) with
            | ok p => simp only [hrec]
            | error e => rfl
          · rw [if_neg hty1, if_neg hty1, hrec]
    · rw [if_neg hoff, if_neg hoff]

theorem analyze_records_step_end (data : List Nat) (offset : Nat)
    (h : ¬ offset + 4 < data.length) :
    analyze_records data offset = ([], .endOfData) := by
  unfold analyze_records
  simp only [analyze_recordsF]
  rw [if_neg h]

theorem analyze_records_step_term (data : List Nat) (offset : Nat)
    (h : offset + 4 < data.length) (hrl : readLE16 data offset = 0) :
    analyze_records data offset = ([], .terminator) := by
  unfold analyze_records
  simp only [analyze_recordsF]
  rw [if_pos h, if_pos hrl]

theorem analyze_recordsF_step_rec (data : List Nat) (offset : Nat)
    (h : offset + 4 < data.length) (hrl : readLE16 data offset ≠ 0) :
    analyze_recordsF (data.length + 1) data offset =
      (if readBE16 data (offset + 2) = 0 then
        (SchRecord.text (parse_properties
            ((data.drop (offset + 4)).take (readLE16 data offset))) ::
          (analyze_records data (offset + 4 + readLE16 data offset)).1,
         (analyze_records data (offset + 4 + readLE16 data offset)).2)
      else if readBE16 data (offset + 2) = 1 then
        match parse_binary_pin
            ((data.drop (offset + 4)).take (readLE16 data offset)) with
        | .ok p =>
          (SchRecord.pin p ::
            (analyze_records data (offset + 4 + readLE16 data offset)).1,
           (analyze_records data (offset + 4 + readLE16 data offset)).2)
        | .error _ => ([], .decodeError)
      else
        (SchRecord.unknown (readBE16 data (offset + 2))
            (((data.drop (offset + 4)).take (readLE16 data offset)).take 50) ::
          (analyze_records data (offset + 4 + readLE16 data offset)).1,
         (analyze_records data (offset + 4 + readLE16 data offset)).2)) := by
  conv_lhs => simp only [analyze_recordsF]
  rw [if_pos h, if_neg hrl]
  have hfuel : analyze_recordsF data.length data
      (offset + 4 + readLE16 data offset) =
      analyze_records data (offset + 4 + readLE16 data offset) := by
    unfold analyze_records
    exact analyze_recordsF_fuel data data.length (data.length + 1) _
      (by omega) (by omega) (by omega) (by omega)
  rw [hfuel]

/-- Claim C2, counterexample: the claim quantifies over every offset and
declared length with `offset + 4 + L ≤ len(buffer)`, but `read_block` also
rejects any `L` above the 100000 sanity ceiling.  A buffer declaring
`L = 100001` with exactly that many payload bytes satisfies the claim's
hypothesis yet returns the empty block with the offset unchanged instead of
the 100001 payload bytes and offset 100005. -/
theorem c2_counterexample :
    readLE32 ([161, 134, 1, 0] ++ List.replicate 100001 0) 0 = 100001 ∧
    0 + 4 + readLE32 ([161, 134, 1, 0] ++ List.replicate 100001 0) 0 ≤
      ([161, 134, 1, 0] ++ List.replicate 100001 0).length ∧
    read_block ([161, 134, 1, 0] ++ List.replicate 100001 0) 0 = ([], 0) := by
  have hL : readLE32 ([161, 134, 1, 0] ++ List.replicate 100001 0) 0 = 100001 := by
    decide
  have hlen : ([161, 134, 1, 0] ++ List.replicate 100001 0).length = 100005 := by
    rw [List.length_append, List.length_replicate]
    rfl
  refine ⟨hL, by rw [hL, hlen], ?_⟩
  simp only [read_block]
  rw [hL, hlen]
  rw [if_neg (by omega), if_pos (by omega)]

/-- Claim C2 (amended): for every offset and declared length
`L = readLE32 data offset` with `L ≤ 100000` and
`offset + 4 + L ≤ len(buffer)`, `read_block` returns exactly the `L` bytes
following the 4-byte little-endian length prefix and advances the offset by
`4 + L`. -/
theorem c2_readBlock_success (data : List Nat) (offset : Nat)
    (hceil : readLE32 data offset ≤ 100000)
    (hfit : offset + 4 + readLE32 data offset ≤ data.length) :
    read_block data offset =
      ((data.drop (offset + 4)).take (readLE32 data offset),
        offset + 4 + readLE32 data offset) ∧
    ((data.drop (offset + 4)).take (readLE32 data offset)).length =
      readLE32 data offset := by
  constructor
  · simp only [read_block]
    rw [if_neg (by omega), if_neg (by omega)]
  · rw [List.length_take, List.length_drop]
    omega

/-- Claim C2, witness: a block declaring 2 payload bytes is read in
full with the offset advanced to 6. -/
theorem c2_readBlock_witness :
    read_block [2, 0, 0, 0, 9, 9] 0 = ([9, 9], 6) := by
  have h := c2_readBlock_success [2, 0, 0, 0, 9, 9] 0 (by decide) (by decide)
  rw [h.1]
  decide

/-- Claim C9: on every failing input (declared length over the ceiling,
fewer than 4 bytes for the prefix, or payload overrunning the buffer)
`read_block` returns the empty block and the original offset unchanged, and
this return value coincides with that of successfully reading a genuine
zero-length block: reading the length-0 block of `[0,0,0,0]` at offset 0
and failing at offset 4 of the empty buffer both return `([], 4)`. -/
theorem c9_readBlock_failure :
    (∀ (data : List Nat) (offset : Nat),
      readLE32 data offset > 100000 ∨ offset + 4 > data.length ∨
        offset + 4 + readLE32 data offset > data.length →
      read_block data offset = ([], offset)) ∧
    read_block [0, 0, 0, 0] 0 = ([], 4) ∧
    read_block [] 4 = ([], 4) := by
  refine ⟨?_, by decide, by decide⟩
  intro data offset h
  simp only [read_block]
  by_cases h1 : offset + 4 > data.length
  · rw [if_pos h1]
  · rw [if_neg h1, if_pos (by omega)]

/-- Claim C9, witness: a 4-byte buffer whose length field declares
4294967295 fails the ceiling check and leaves the cursor at 0. -/
theorem c9_readBlock_witness :
    read_block [255, 255, 255, 255] 0 = ([], 0) :=
  c9_readBlock_failure.1 [255, 255, 255, 255] 0 (by decide)

/-- Claim C6: the property-text parser splits on `'|'`, splits each piece
on the first `'='`, drops pieces without `'='` without error, and keeps the
last value on duplicate keys: `"A=1|B=2|C"` yields `{A:"1", B:"2"}`,
`"A=1|A=2"` yields `{A:"2"}`, and `"A=1=2"` (split on the first `'='` only)
yields `{A:"1=2"}`. -/
theorem c6_property_text :
    parse_properties [65, 61, 49, 124, 66, 61, 50, 124, 67] =
      [([65], [49]), ([66], [50])] ∧
    parse_properties [65, 61, 49, 124, 65, 61, 50] = [([65], [50])] ∧
    parse_properties [65, 61, 49, 61, 50] = [([65], [49, 61, 50])] := by
  decide

/-- Claim C10: the SchLib record loop reads a header only while at least 5
bytes remain past the cursor; whenever 4 or fewer remain it completes
normally (`endOfData`, the same silent completion as a stream with no
records), so a stream whose declared 0-length terminator occupies exactly
the last 4 bytes — like the 11-byte example, one text record then
`[0,0,0,0]` — returns the records decoded so far and is never reported as
truncated. -/
theorem c10_loop_exit :
    (∀ (data : List Nat) (offset : Nat), data.length ≤ offset + 4 →
      analyze_records data offset = ([], .endOfData)) ∧
    analyze_records [3, 0, 0, 0, 65, 61, 49, 0, 0, 0, 0] 0 =
      ([.text [([65], [49])]], .endOfData) := by
  refine ⟨?_, by decide⟩
  intro data offset h
  exact analyze_records_step_end data offset (by omega)

/-- Claim C10, witness: a 3-byte stream read from offset 5 has fewer than 5
bytes remaining and completes silently. -/
theorem c10_loop_witness : analyze_records [9, 9, 9] 5 = ([], .endOfData) :=
  c10_loop_exit.1 [9, 9, 9] 5 (by decide)

/-- Claim C3, counterexample: the windows-1252 code page used by both text
decoders does not map every byte value — 0x81 is undefined and raises —
so an input whose well-formed prefix `"A=1|"` is followed by 0x81 decodes
to nothing: `parse_properties` returns the empty map where the same prefix
alone yields `{A:"1"}`. -/
theorem c3_counterexample :
    win1252Byte 0x81 = none ∧
    decodeWin1252 [65, 61, 49, 124, 0x81] = none ∧
    parse_properties [65, 61, 49, 124, 0x81] = [] ∧
    parse_properties [65, 61, 49] = [([65], [49])] := by
  decide

theorem win1252Byte_isSome (b : Nat)
    (h : ¬(b = 0x81 ∨ b = 0x8D ∨ b = 0x8F ∨ b = 0x90 ∨ b = 0x9D)) :
    (win1252Byte b).isSome = true := by
  unfold win1252Byte
  rw [if_neg h]
  rfl

/-- Claim C3 (amended): the single-byte code page (windows-1252) maps every
byte except the five undefined values 0x81, 0x8D, 0x8F, 0x90, 0x9D, so
decoding succeeds on any input free of them; on inputs containing one of
them decoding fails, and the parsers catch the failure rather than raising:
`parse_properties` returns the empty map and `read_string_from_block` the
empty string. -/
theorem c3_codepage (good bad blk : List Nat)
    (hgood : ∀ b ∈ good,
      ¬(b = 0x81 ∨ b = 0x8D ∨ b = 0x8F ∨ b = 0x90 ∨ b = 0x9D))
    (hbad : decodeWin1252 bad = none)
    (hblk : decodeWin1252 ((blk.drop 1).take (byteAt blk 0)) = none) :
    (decodeWin1252 good).isSome = true ∧
    parse_properties bad = [] ∧
    read_string_from_block blk = [] := by
  refine ⟨?_, by simp [parse_properties, hbad], ?_⟩
  · induction good with
    | nil => simp [decodeWin1252]
    | cons b t ih =>
      have hb := win1252Byte_isSome b (hgood b (by simp))
      obtain ⟨c, hc⟩ := Option.isSome_iff_exists.mp hb
      have ht : (decodeWin1252 t).isSome = true :=
        ih (fun x hx => hgood x (by simp [hx]))
      obtain ⟨s, hs⟩ := Option.isSome_iff_exists.mp ht
      simp [decodeWin1252, hc, hs]
  · rw [List.drop_one] at hblk
    simp only [read_string_from_block]
    split_ifs
    · rfl
    · rfl
    · simp [hblk]

/-- Claim C3, witness: plain ASCII decodes, while inputs containing the
undefined byte 0x81 make the parsers return empty results. -/
theorem c3_codepage_witness :
    (decodeWin1252 [65]).isSome = true ∧
    parse_properties [65, 61, 49, 0x81] = [] ∧
    read_string_from_block [1, 0x81] = [] :=
  c3_codepage [65] [65, 61, 49, 0x81] [1, 0x81]
    (by decide) (by decide) (by decide)

/-- Claim C1, counterexample: tag 3 (Via) is named in the source's
`record_names` table, but the dispatch chain has no Via branch, so a stream
starting with tag 3 decodes zero primitives and moves to `Aborted` after
consuming the tag byte — the claimed transition (invoke Via's block
sequence and append the primitive) does not happen. -/
theorem c1_via_counterexample :
    byteAt [3, 7, 7] 0 = 3 ∧
    parsePrims [3, 7, 7] 0 = ([], .aborted, 1) := by
  decide

/-- Claim C1 (amended): the decode loop reads one tag byte per iteration;
tag 0 moves to Done with the cursor on the terminator; a tag that the
dispatch chain implements — exactly {1:Arc, 2:Pad, 4:Track, 5:Text, 6:Fill,
0x0B:Region, 0x0C:ComponentBody}, not including 3 (Via) — consumes that
kind's block sequence, appends the primitive, and continues; every tag
outside that set (including 3) moves to Aborted after the tag byte,
returning the primitives decoded so far. -/
theorem c1_tag_transitions (d1 : List Nat) (o1 : Nat)
    (d2 : List Nat) (o2 n2 : Nat) (d3 : List Nat) (o3 : Nat)
    (h1 : o1 < d1.length) (e1 : byteAt d1 o1 = 0)
    (h2 : o2 < d2.length) (e2 : byteAt d2 o2 ≠ 0)
    (hd2 : dispatch d2 (o2 + 1) (byteAt d2 o2) = some n2)
    (h3 : o3 < d3.length) (e3 : byteAt d3 o3 ≠ 0)
    (hd3 : dispatch d3 (o3 + 1) (byteAt d3 o3) = none) :
    parsePrims d1 o1 = ([], .done, o1) ∧
    parsePrims d2 o2 =
      (byteAt d2 o2 :: (parsePrims d2 n2).1, (parsePrims d2 n2).2) ∧
    parsePrims d3 o3 = ([], .aborted, o3 + 1) ∧
    (∀ (d : List Nat) (o t : Nat), t ∉ ([1, 2, 4, 5, 6, 11, 12] : List Nat) →
      dispatch d o t = none) := by
  refine ⟨parsePrims_step_done d1 o1 h1 e1,
    parsePrims_step_cons d2 o2 n2 h2 e2 hd2,
    parsePrims_step_abort d3 o3 h3 e3 hd3, ?_⟩
  intro d o t ht
  unfold dispatch
  split_ifs with k1 k2 k3 k4 k5 k6 k7
  · exact absurd (by subst_vars; decide) ht
  · exact absurd (by subst_vars; decide) ht
  · exact absurd (by subst_vars; decide) ht
  · exact absurd (by subst_vars; decide) ht
  · exact absurd (by subst_vars; decide) ht
  · exact absurd (by subst_vars; decide) ht
  · exact absurd (by subst_vars; decide) ht
  · rfl

/-- Claim C1, witness: a lone terminator, a Track primitive followed by the
terminator, and an unknown tag 9, each from offset 0. -/
theorem c1_transitions_witness :
    parsePrims [0] 0 = ([], .done, 0) ∧
    parsePrims [4, 0, 0, 0, 0, 0] 0 = ([4], .done, 5) ∧
    parsePrims [9] 0 = ([], .aborted, 1) := by
  have h := c1_tag_transitions [0] 0 [4, 0, 0, 0, 0, 0] 0 5 [9] 0
    (by decide) (by decide) (by decide) (by decide) (by decide)
    (by decide) (by decide) (by decide)
  refine ⟨h.1, ?_, h.2.2.1⟩
  rw [h.2.1]
  decide

theorem length_filterMap_range {α : Type} (M : Nat) (g : Nat → α) :
    ∀ n : Nat, ((List.range n).filterMap
      (fun i => if i < M then some (g i) else none)).length = min n M := by
  intro n
  induction n with
  | zero => simp
  | succ n ih =>
    rw [List.range_succ, List.filterMap_append, List.length_append, ih]
    by_cases h : n < M
    · simp [h]
      omega
    · simp [h]
      omega

/-- Claim C7: the vertex count of a Region vertices block is the
little-endian 32-bit value of its first 4 bytes; vertex `i` occupies the 16
bytes starting at offset `4 + 16*i`, and the decoder reads exactly
`min count ((len-4)/16)` vertices, silently stopping early when a vertex
would overrun the block; concretely a block with count 3 and exactly
`3*16+4` bytes decodes the three vertices at byte offsets 4, 20 and 36. -/
theorem c7_region_vertices :
    (∀ block1 : List Nat, 4 ≤ block1.length →
      (regionVertices block1).length =
        min (readLE32 block1 0) ((block1.length - 4) / 16)) ∧
    regionVertices ([3, 0, 0, 0] ++ List.range 48) =
      [([0, 1, 2, 3, 4, 5, 6, 7], [8, 9, 10, 11, 12, 13, 14, 15]),
       ([16, 17, 18, 19, 20, 21, 22, 23], [24, 25, 26, 27, 28, 29, 30, 31]),
       ([32, 33, 34, 35, 36, 37, 38, 39], [40, 41, 42, 43, 44, 45, 46, 47])] := by
  refine ⟨?_, by decide⟩
  intro block1 h4
  unfold regionVertices
  rw [if_pos h4]
  have hfun : (fun i => if 4 + i * 16 + 16 ≤ block1.length then
      some ((block1.drop (4 + i * 16)).take 8,
            (block1.drop (4 + i * 16 + 8)).take 8) else none)
      = (fun i => if i < (block1.length - 4) / 16 then
      some ((block1.drop (4 + i * 16)).take 8,
            (block1.drop (4 + i * 16 + 8)).take 8) else none) := by
    funext i
    have hiff : (4 + i * 16 + 16 ≤ block1.length) ↔
        (i < (block1.length - 4) / 16) := by
      rw [Nat.lt_iff_add_one_le, Nat.le_div_iff_mul_le (by norm_num : 0 < 16)]
      omega
    by_cases hc : 4 + i * 16 + 16 ≤ block1.length
    · rw [if_pos hc, if_pos (hiff.mp hc)]
    · rw [if_neg hc, if_neg (fun hlt => hc (hiff.mpr hlt))]
  rw [hfun, length_filterMap_range]

/-- Claim C7, witness: the 52-byte block with count 3 has exactly
`min 3 3 = 3` decoded vertices. -/
theorem c7_region_witness :
    (regionVertices ([3, 0, 0, 0] ++ List.range 48)).length =
      min (readLE32 ([3, 0, 0, 0] ++ List.range 48) 0)
        ((([3, 0, 0, 0] ++ List.range 48).length - 4) / 16) :=
  c7_region_vertices.1 ([3, 0, 0, 0] ++ List.range 48) (by decide)

/-- Claim C4, counterexample: the claim says the cursor advances by
`4 + recordLength` regardless of whether the payload decoded, so one
malformed record never desynchronizes the rest of the stream.  But a
binary-pin payload with invalid UTF-8 raises out of the loop: the stream
`c4BadStream` decodes to no records at all with `decodeError`, even though
decoding the very same stream from the second record's offset (19) yields
its text record and the terminator. -/
theorem c4_desync_counterexample :
    analyze_records c4BadStream 0 = ([], .decodeError) ∧
    analyze_records c4BadStream 19 = ([.text [([65], [49])]], .terminator) := by
  decide

/-- Claim C4 (amended): for every record header read with a nonzero
declared length, either the loop appends one decoded record and continues
exactly at `offset + 4 + recordLength` (so the remainder of the stream is
decoded as if from that cursor), or the record is a type-1 binary pin whose
payload raises on UTF-8 decoding, in which case the loop aborts the whole
component with `decodeError`, abandoning the remaining records. -/
theorem c4_record_advance (data : List Nat) (offset : Nat)
    (h : offset + 4 < data.length) (hrl : readLE16 data offset ≠ 0) :
    (∃ r : SchRecord, analyze_records data offset =
      (r :: (analyze_records data (offset + 4 + readLE16 data offset)).1,
        (analyze_records data (offset + 4 + readLE16 data offset)).2)) ∨
    (readBE16 data (offset + 2) = 1 ∧
      parse_binary_pin ((data.drop (offset + 4)).take (readLE16 data offset))
        = .error () ∧
      analyze_records data offset = ([], .decodeError)) := by
  have hstep := analyze_recordsF_step_rec data offset h hrl
  have hself : analyze_records data offset =
      analyze_recordsF (data.length + 1) data offset := rfl
  rw [hself, hstep]
  by_cases h0 : readBE16 data (offset + 2) = 0
  · rw [if_pos h0]
    exact Or.inl ⟨_, rfl⟩
  · rw [if_neg h0]
    by_cases h1 : readBE16 data (offset + 2) = 1
    · rw [if_pos h1]
      cases hp : parse_binary_pin
          ((data.drop (offset + 4)).take (readLE16 data offset)) with
      | ok p => exact Or.inl ⟨.pin p, rfl⟩
      | error e =>
        right
        refine ⟨h1, ?_, rfl⟩
        cases e
        rfl
    · rw [if_neg h1]
      exact Or.inl ⟨_, rfl⟩

/-- Claim C4, witness: on a stream starting with a well-formed text record
the amended dichotomy is realized. -/
theorem c4_record_advance_witness :
    (∃ r : SchRecord, analyze_records c4GoodStream 0 =
      (r :: (analyze_records c4GoodStream
          (0 + 4 + readLE16 c4GoodStream 0)).1,
        (analyze_records c4GoodStream
          (0 + 4 + readLE16 c4GoodStream 0)).2)) ∨
    (readBE16 c4GoodStream (0 + 2) = 1 ∧
      parse_binary_pin
          ((c4GoodStream.drop (0 + 4)).take (readLE16 c4GoodStream 0))
        = .error () ∧
      analyze_records c4GoodStream 0 = ([], .decodeError)) :=
  c4_record_advance c4GoodStream 0 (by decide) (by decide)

theorem min_shift (a b L : Nat) : min (min a L + b) L = min (a + b) L := by
  omega

theorem min_add_absorb (L b : Nat) : min (L + b) L = L := by
  omega

theorem leVal_nil : leVal [] = 0 := rfl

theorem bioRead_at_end (payload : List Nat) (n : Nat) :
    bioRead payload payload.length n = ([], payload.length) := by
  unfold bioRead
  rw [List.drop_length, List.take_nil,
    Nat.min_eq_right (Nat.le_add_right _ _)]

theorem readStringField_at_end (payload : List Nat) (dl : Nat) :
    readStringField payload payload.length dl = .ok ([], payload.length) := by
  simp only [readStringField, bioRead_at_end]
  split_ifs <;> rfl

/-- Claim C5, counterexample: a binary-pin payload exhausted before its
declared 5-byte description does not fail with any TruncatedRecord
condition — `parse_binary_pin` returns a fully formed record with an empty
description and zero-valued remaining fields. -/
theorem c5_truncation_counterexample :
    parse_binary_pin [0, 0, 0, 0, 0, 0, 0, 0, 0, 0, 0, 0, 5, 0] =
      .ok ⟨0, 0, 0, 0, 0, 0, 0, [], 0, false, false, false, false, false,
        0, 0, 0, 0, [], []⟩ := by
  rfl

/-- Claim C5 (amended): the pin decoder detects no truncation — on every
payload that ends before the declared description bytes begin (at most the
14 fixed leading bytes), decoding succeeds with empty description, name and
designator (reads past the end return no bytes and integer fields default
to 0); and the outer record loop advances by the declared record length as
for any successful record, as the stream `c5Stream` shows: the truncated
pin record is followed by a correctly decoded text record and the
terminator. -/
theorem c5_pin_truncation :
    (∀ payload : List Nat, payload.length ≤ 14 →
      ∃ p : PinRecord, parse_binary_pin payload = .ok p ∧
        p.description = [] ∧ p.name = [] ∧ p.designator = []) ∧
    analyze_records c5Stream 0 =
      ([.pin ⟨0, 0, 0, 0, 0, 0, 0, [], 0, false, false, false, false, false,
          0, 0, 0, 0, [], []⟩, .text [([65], [49])]], .terminator) := by
  refine ⟨?_, by decide⟩
  intro payload h
  have hmin : min 14 payload.length = payload.length := by omega
  simp only [parse_binary_pin, bioRead, Nat.zero_add, min_shift]
  rw [hmin]
  simp only [Nat.add_assoc, min_add_absorb, List.drop_length, List.take_nil,
    leVal_nil, readStringField_at_end]
  exact ⟨_, rfl, rfl, rfl, rfl⟩

/-- Claim C5, witness: the empty payload decodes successfully with empty
string fields. -/
theorem c5_pin_truncation_witness :
    ∃ p : PinRecord, parse_binary_pin [] = .ok p ∧
      p.description = [] ∧ p.name = [] ∧ p.designator = [] :=
  c5_pin_truncation.1 [] (by decide)

/-- Reading blocks in sequence over a buffer that lays them out
back-to-back after `pre` lands exactly past the encoded blocks. -/
theorem readBlockIter_enc : ∀ (ps : List (List Nat)) (pre rest : List Nat),
    (∀ p ∈ ps, p.length ≤ 100000) →
    readBlockIter (pre ++ (blocksEnc ps ++ rest)) pre.length ps.length =
      pre.length + chunksLen ps := by
  intro ps
  induction ps with
  | nil =>
    intro pre rest h
    simp [readBlockIter, chunksLen]
  | cons p ps ih =>
    intro pre rest h
    have hassoc : pre ++ (blocksEnc (p :: ps) ++ rest) =
        (pre ++ encBlock p) ++ (blocksEnc ps ++ rest) := by
      simp [blocksEnc, List.append_assoc]
    show readBlockIter (pre ++ (blocksEnc (p :: ps) ++ rest)) pre.length
      (ps.length + 1) = _
    have hstep : (read_block (pre ++ (blocksEnc (p :: ps) ++ rest))
        pre.length).2 = pre.length + (4 + p.length) := by
      have : pre ++ (blocksEnc (p :: ps) ++ rest) =
          pre ++ (encBlock p ++ (blocksEnc ps ++ rest)) := by
        simp [blocksEnc, List.append_assoc]
      rw [this, read_block_enc pre p (blocksEnc ps ++ rest) (h p (by simp))]
    have hlen2 : (pre ++ encBlock p).length = pre.length + (4 + p.length) := by
      simp [encBlock, encodeLE32]
      omega
    rw [show readBlockIter (pre ++ (blocksEnc (p :: ps) ++ rest)) pre.length
        (ps.length + 1) = readBlockIter (pre ++ (blocksEnc (p :: ps) ++ rest))
        (read_block (pre ++ (blocksEnc (p :: ps) ++ rest)) pre.length).2
        ps.length from rfl]
    rw [hstep, ← hlen2, hassoc]
    rw [ih (pre ++ encBlock p) rest (fun q hq => h q (by simp [hq]))]
    rw [hlen2]
    simp [chunksLen]
    omega

/-- `dispatch` on an implemented tag whose blocks are laid out after `pre`
consumes exactly the encoded blocks. -/
theorem dispatch_enc (t : Nat) (ps : List (List Nat)) (pre rest : List Nat)
    (ht : t ∈ ([1, 2, 4, 5, 6, 11, 12] : List Nat)) (har : ps.length = arity t)
    (hp : ∀ p ∈ ps, p.length ≤ 100000) :
    dispatch (pre ++ (blocksEnc ps ++ rest)) pre.length t =
      some (pre.length + chunksLen ps) := by
  have hiter := readBlockIter_enc ps pre rest hp
  fin_cases ht
  · simp only [arity] at har
    simp only [dispatch, parse_arc_off]
    norm_num
    rw [← har, hiter]
  · simp only [arity] at har
    simp only [dispatch, parse_pad_off]
    norm_num
    rw [← har, hiter]
  · simp only [arity] at har
    simp only [dispatch, parse_track_off]
    norm_num
    rw [← har, hiter]
  · simp only [arity] at har
    simp only [dispatch, parse_text_off]
    norm_num
    rw [← har, hiter]
  · simp only [arity] at har
    simp only [dispatch, parse_fill_off]
    norm_num
    rw [← har, hiter]
  · simp only [arity] at har
    simp only [dispatch, parse_region_off]
    norm_num
    rw [← har, hiter]
  · simp only [arity] at har
    simp only [dispatch, parse_body_off]
    norm_num
    rw [← har, hiter]

/-- Claim C8: a footprint primitive stream of well-formed primitives
followed by a single 0-tag terminator decodes every primitive, reaches Done
at the terminator, and leaves the cursor on the terminator — no byte past
it is consumed.  The statement is generalized over an arbitrary prefix
`pre` (the name block in the source) and holds for any number of
primitives. -/
theorem c8_stream_decode : ∀ (chunks : List (Nat × List (List Nat)))
    (pre : List Nat), (∀ c ∈ chunks, WFChunk c) →
    parsePrims (pre ++ (encStream chunks ++ [0])) pre.length =
      (chunks.map (fun c => c.1), .done,
        pre.length + (encStream chunks).length) := by
  intro chunks
  induction chunks with
  | nil =>
    intro pre h
    have hb : byteAt (pre ++ (encStream [] ++ [0])) pre.length = 0 := by
      have hz := byteAt_append_right pre (encStream [] ++ [0]) 0
      rw [Nat.add_zero] at hz
      rw [hz]
      rfl
    have hlen : pre.length < (pre ++ (encStream [] ++ [0])).length := by
      simp [encStream]
    rw [parsePrims_step_done _ _ hlen hb]
    simp [encStream]
  | cons c cs ih =>
    intro pre h
    obtain ⟨hmem, har, hps⟩ := h c (by simp)
    have hform : pre ++ (encStream (c :: cs) ++ [0]) =
        pre ++ ((c.1 :: blocksEnc c.2) ++ (encStream cs ++ [0])) := by
      simp [encStream, List.append_assoc]
    have htag : byteAt (pre ++ (encStream (c :: cs) ++ [0])) pre.length =
        c.1 := by
      rw [hform]
      have hz := byteAt_append_right pre
        ((c.1 :: blocksEnc c.2) ++ (encStream cs ++ [0])) 0
      rw [Nat.add_zero] at hz
      rw [hz]
      rfl
    have htag0 : c.1 ≠ 0 := by
      simp only [List.mem_cons, List.not_mem_nil, or_false] at hmem
      omega
    have hlen : pre.length < (pre ++ (encStream (c :: cs) ++ [0])).length := by
      simp [encStream]
    have hdisp : dispatch (pre ++ (encStream (c :: cs) ++ [0]))
        (pre.length + 1) c.1 = some (pre.length + 1 + chunksLen c.2) := by
      have hview : pre ++ (encStream (c :: cs) ++ [0]) =
          (pre ++ [c.1]) ++ (blocksEnc c.2 ++ (encStream cs ++ [0])) := by
        simp [encStream, List.append_assoc]
      have hl1 : (pre ++ [c.1]).length = pre.length + 1 := by simp
      rw [hview, ← hl1]
      rw [dispatch_enc c.1 c.2 (pre ++ [c.1]) (encStream cs ++ [0]) hmem har
        (fun p hp => (hps p hp).1)]
    have hnext : pre.length + 1 + chunksLen c.2 =
        (pre ++ (c.1 :: blocksEnc c.2)).length := by
      simp [length_blocksEnc]
      omega
    rw [parsePrims_step_cons _ _ _ hlen (htag ▸ htag0) (htag ▸ hdisp), htag]
    have hdata2 : pre ++ (encStream (c :: cs) ++ [0]) =
        (pre ++ (c.1 :: blocksEnc c.2)) ++ (encStream cs ++ [0]) := by
      simp [encStream, List.append_assoc]
    rw [hnext, hdata2]
    rw [ih (pre ++ (c.1 :: blocksEnc c.2)) (fun x hx => h x (by simp [hx]))]
    have hfin : (pre ++ (c.1 :: blocksEnc c.2)).length +
        (encStream cs).length =
        pre.length + (encStream (c :: cs)).length := by
      simp [encStream, length_blocksEnc]
      omega
    rw [hfin]
    rfl

/-- Claim C8, witness: one Track primitive with one empty block, followed
by the terminator: one primitive decoded, Done, cursor on the
terminator. -/
theorem c8_stream_witness :
    parsePrims [4, 0, 0, 0, 0, 0] 0 = ([4], .done, 5) := by
  have h := c8_stream_decode [(4, [[]])] [] (by decide)
  simpa [encStream, blocksEnc, encBlock, encodeLE32] using h

end Altium
